import Mathlib

/-
Verification of the `speed-reading` backend core: the document ingestion /
segmentation pipeline (`app/services/book_processor.py`), the paragraph CRUD
invariants (`app/api/books.py`), the question generator with retry and
fallback (`app/services/ai_service.py`), and the background-generation
coordinator (`app/services/reading_service.py`, `app/api/reading.py`).

Python strings are modelled as `List Char` (`PyStr`): `len` is `List.length`
(both count code points), `str.strip()` is `pyStrip`, `str.split("\n")` is
`splitOnNL`.  HTML-tag stripping (`BeautifulSoup.get_text` /
`re.sub(r"<[^>]+>", "", ...)` in `_strip_html_tags`) is modelled by the
scanner `stripTags`, which drops every `<`...`>` span; on the markup this
pipeline produces (plain text and well-formed `<p>...</p>` wrappers) the two
agree.
-/

namespace SpeedReading

/-! ## Python string model -/

/-- A Python `str`, modelled as its list of code points. -/
abbrev PyStr := List Char

/-- The whitespace characters removed by Python `str.strip()` (ASCII part). -/
def pyWhitespace : List Char := [' ', '\t', '\n', '\r', '\x0b', '\x0c']

/-- Is `c` whitespace in the sense of Python `str.strip()`? -/
def isPySpace (c : Char) : Bool := pyWhitespace.contains c

/-- Python `s.strip()`: remove leading and trailing whitespace. -/
def pyStrip (s : PyStr) : PyStr :=
  ((s.dropWhile isPySpace).reverse.dropWhile isPySpace).reverse

/-- Python `s.split("\n")`.  `[] ↦ [[]]`, matching `"".split("\n") == [""]`. -/
def splitOnNL : PyStr → List PyStr
  | [] => [[]]
  | c :: rest =>
    if c = '\n' then [] :: splitOnNL rest
    else
      match splitOnNL rest with
      | [] => [[c]]
      | s :: ss => (c :: s) :: ss

/-- Tag-stripping scanner: `stripTagsAux inTag s` drops every character from a
`<` up to the matching `>`.  Models `BeautifulSoup(...).get_text()` (and the
regex fallback of `_strip_html_tags`) on the markup handled here. -/
def stripTagsAux : Bool → PyStr → PyStr
  | _, [] => []
  | true, c :: rest => if c = '>' then stripTagsAux false rest else stripTagsAux true rest
  | false, c :: rest => if c = '<' then stripTagsAux true rest else c :: stripTagsAux false rest

/-- The stripped-text rendering of a markup string (HTML tags removed):
`BookProcessor._strip_html_tags`. -/
def stripTags (s : PyStr) : PyStr := stripTagsAux false s

/-! ## Segmenter (`BookProcessor`, `book_processor.py`) -/

/-- `[line.strip() for line in text.split("\n") if line.strip()]` — the
non-empty stripped lines of `text`.  Used (on the tag-stripped text) at
`_split_oversized_paragraphs` lines 475-478, and (on the raw content) as
`raw_paragraphs` at `_split_text_paragraphs` line 516. -/
def textBlocks (text : PyStr) : List PyStr :=
  ((splitOnNL text).map pyStrip).filter (fun l => l ≠ [])

/-- The accumulation loop of `_split_oversized_paragraphs` (lines 483-496):
greedily joins consecutive blocks with `"\n"` while the joined length stays
`≤ maxLen`, emitting the running chunk when the next block does not fit. -/
def packBlocks (maxLen : Nat) : PyStr → List PyStr → List PyStr
  | current, [] => if current = [] then [] else [current]
  | current, b :: rest =>
    if current = [] then packBlocks maxLen b rest
    else if current.length + b.length + 1 ≤ maxLen then
      packBlocks maxLen (current ++ '\n' :: b) rest
    else current :: packBlocks maxLen b rest

/-- `f"<p>{current}</p>"` — re-wrap an emitted chunk as a paragraph block. -/
def wrapP (s : PyStr) : PyStr := ['<', 'p', '>'] ++ s ++ ['<', '/', 'p', '>']

/-- One input paragraph's contribution to `normalized` in
`_split_oversized_paragraphs`: take the non-empty stripped lines of its
stripped text, pack them, and wrap each emitted chunk in `<p>...</p>`. -/
def splitOversizedOne (maxLen : Nat) (paragraph : PyStr) : List PyStr :=
  (packBlocks maxLen [] (textBlocks (stripTags paragraph))).map wrapP

/-- `BookProcessor._split_oversized_paragraphs(paragraphs, max_text_length)`
(lines 466-498, the primary `bs4` branch): split over-long paragraphs at line
boundaries; if nothing was produced, return the input unchanged
(`normalized if normalized else paragraphs`). -/
def splitOversizedParagraphs (paragraphs : List PyStr) (maxLen : Nat) : List PyStr :=
  let normalized := paragraphs.flatMap (splitOversizedOne maxLen)
  if normalized = [] then paragraphs else normalized

/-- The accumulation loop of `_split_text_paragraphs` (lines 518-537): join
consecutive raw lines with `"\n"` while the running chunk is shorter than
`lowMark` (1000), emitting it once it has reached `lowMark`. -/
def accumulateChunks (lowMark : Nat) : PyStr → List PyStr → List PyStr
  | current, [] => if current = [] then [] else [current]
  | current, raw :: rest =>
    if current = [] then accumulateChunks lowMark raw rest
    else if current.length < lowMark then
      accumulateChunks lowMark (current ++ '\n' :: raw) rest
    else current :: accumulateChunks lowMark raw rest

/-- `BookProcessor._split_text_paragraphs(content)` (lines 513-538): plain-text
segmentation with low-water mark 1000. -/
def splitTextParagraphs (content : PyStr) : List PyStr :=
  accumulateChunks 1000 [] (textBlocks content)

/-! ## Paragraph records (`process_book`, `books.py` endpoints) -/

/-- A persisted paragraph row: the fields of `models.Paragraph` that the
claims are about (`book_id` is fixed by context). -/
structure ParagraphRec where
  sequence : Nat
  content : PyStr
  word_count : Nat
deriving Repr, DecidableEq

/-- The bulk-creation loop of `BookProcessor.process_book` (lines 38-49):
1-based `sequence` from `enumerate(paragraphs, 1)`, and
`word_count = len(self._strip_html_tags(paragraph_content))`. -/
def processBookParagraphs (chunks : List PyStr) : List ParagraphRec :=
  chunks.enum.map fun ic =>
    { sequence := ic.1 + 1, content := ic.2, word_count := (stripTags ic.2).length }

/-- `update_paragraph` (`books.py` lines 232-233): sets the new content and
`word_count = len(content)` — the raw length of `content`. -/
def updateParagraph (p : ParagraphRec) (content : PyStr) : ParagraphRec :=
  { p with content := content, word_count := content.length }

/-- `delete_paragraph` (`books.py` lines 269-291): remove the paragraph whose
sequence is `deletedSequence`, then decrement every sequence greater than it. -/
def deleteParagraph (paragraphs : List ParagraphRec) (deletedSequence : Nat) :
    List ParagraphRec :=
  (paragraphs.filter (fun p => p.sequence ≠ deletedSequence)).map fun p =>
    if deletedSequence < p.sequence then { p with sequence := p.sequence - 1 } else p

example : splitTextParagraphs "Line one.\n\nLine two.".data = ["Line one.\nLine two.".data] := by decide

example : textBlocks "  a \n\n b".data = ["a".data, "b".data] := by decide

example : stripTags "<p>ab</p>".data = "ab".data := by decide

/-! ## Basic lemmas about the string model -/

/-- Every line of `textBlocks` is non-empty (it survived the `if line.strip()`
filter). -/
lemma textBlocks_ne_nil {text : PyStr} {b : PyStr} (hb : b ∈ textBlocks text) : b ≠ [] := by
  have := List.of_mem_filter hb
  simpa using this

/-- `"\n".join`, as used to reassemble chunk contents. -/
def joinNL (chunks : List PyStr) : PyStr := List.intercalate ['\n'] chunks

lemma joinNL_nil : joinNL [] = [] := rfl

lemma joinNL_single (a : PyStr) : joinNL [a] = a := by
  simp [joinNL, List.intercalate]

lemma joinNL_cons_cons (a b : PyStr) (t : List PyStr) :
    joinNL (a :: b :: t) = a ++ '\n' :: joinNL (b :: t) := by
  simp [joinNL, List.intercalate]

lemma joinNL_glue (a b : PyStr) (t : List PyStr) :
    joinNL ((a ++ '\n' :: b) :: t) = a ++ '\n' :: joinNL (b :: t) := by
  cases t with
  | nil => simp [joinNL_single]
  | cons x xs => simp [joinNL_cons_cons]

/-- The text-path accumulator never returns an empty chunk list when it starts
with a non-empty running chunk. -/
lemma accumulateChunks_ne_nil (lowMark : Nat) :
    ∀ (raws : List PyStr) (current : PyStr), current ≠ [] →
      accumulateChunks lowMark current raws ≠ [] := by
  intro raws
  induction raws with
  | nil => intro current hc; simp [accumulateChunks, hc]
  | cons raw rest ih =>
    intro current hc
    simp only [accumulateChunks, if_neg hc]
    by_cases hlt : current.length < lowMark
    · simp only [if_pos hlt]
      exact ih _ (by simp)
    · simp only [if_neg hlt]
      exact List.cons_ne_nil _ _

/-- Content preservation of the text-path accumulator: joining its chunks with
`"\n"` reproduces the join of the incoming lines. -/
lemma accumulateChunks_join (lowMark : Nat) :
    ∀ (raws : List PyStr) (current : PyStr), current ≠ [] →
      (∀ r ∈ raws, r ≠ []) →
      joinNL (accumulateChunks lowMark current raws) = joinNL (current :: raws) := by
  intro raws
  induction raws with
  | nil => intro current hc _; simp [accumulateChunks, hc, joinNL_single]
  | cons raw rest ih =>
    intro current hc hr
    have hraw : raw ≠ [] := hr raw (by simp)
    have hrest : ∀ r ∈ rest, r ≠ [] := fun r h => hr r (by simp [h])
    simp only [accumulateChunks, if_neg hc]
    by_cases hlt : current.length < lowMark
    · simp only [if_pos hlt]
      rw [ih (current ++ '\n' :: raw) (by simp) hrest]
      rw [joinNL_glue, joinNL_cons_cons]
    · simp only [if_neg hlt]
      obtain ⟨x, xs, hx⟩ := List.exists_cons_of_ne_nil (accumulateChunks_ne_nil lowMark rest raw hraw)
      rw [joinNL_cons_cons]
      rw [hx, joinNL_cons_cons, ← hx, ih raw hraw hrest]

/-! ## Evaluation lemmas for concrete segmentation inputs -/

lemma splitOnNL_no_nl {s : PyStr} (h : '\n' ∉ s) : splitOnNL s = [s] := by
  induction s with
  | nil => rfl
  | cons c t ih =>
    have hc : c ≠ '\n' := fun e => h (by simp [e])
    have ht : '\n' ∉ t := fun m => h (by simp [m])
    simp [splitOnNL, hc, ih ht]

lemma splitOnNL_append {a b : PyStr} (h : '\n' ∉ a) :
    splitOnNL (a ++ '\n' :: b) = a :: splitOnNL b := by
  induction a with
  | nil => simp [splitOnNL]
  | cons c t ih =>
    have hc : c ≠ '\n' := fun e => h (by simp [e])
    have ht : '\n' ∉ t := fun m => h (by simp [m])
    simp [splitOnNL, hc, ih ht]

lemma dropWhile_eq_self_of {p : Char → Bool} :
    ∀ {l : PyStr}, (∀ c ∈ l, p c = false) → l.dropWhile p = l
  | [], _ => rfl
  | c :: t, h => by simp [List.dropWhile, h c (by simp)]

lemma pyStrip_eq_self {s : PyStr} (h : ∀ c ∈ s, isPySpace c = false) : pyStrip s = s := by
  unfold pyStrip
  rw [dropWhile_eq_self_of h, dropWhile_eq_self_of (by intro c hc; exact h c (by simpa using hc))]
  exact List.reverse_reverse s

lemma stripTagsAux_false_eq_self : ∀ {s : PyStr}, '<' ∉ s → stripTagsAux false s = s
  | [], _ => rfl
  | c :: t, h => by
    have hc : c ≠ '<' := fun e => h (by simp [e])
    have ht : '<' ∉ t := fun m => h (List.mem_cons_of_mem c m)
    simp [stripTagsAux, hc, stripTagsAux_false_eq_self ht]

/-- On tag-free text, tag stripping is the identity. -/
lemma stripTags_eq_self {s : PyStr} (h : '<' ∉ s) : stripTags s = s :=
  stripTagsAux_false_eq_self h

lemma stripTagsAux_append_close : ∀ {c : PyStr}, '<' ∉ c →
    stripTagsAux false (c ++ ['<', '/', 'p', '>']) = c
  | [], _ => rfl
  | d :: t, h => by
    have hd : d ≠ '<' := fun e => h (by simp [e])
    have ht : '<' ∉ t := fun m => h (List.mem_cons_of_mem d m)
    simp [stripTagsAux, hd, stripTagsAux_append_close ht]

/-- Stripping the tags of a re-wrapped chunk `f"<p>{c}</p>"` recovers `c`. -/
lemma stripTags_wrapP {c : PyStr} (h : '<' ∉ c) : stripTags (wrapP c) = c := by
  show stripTagsAux false (['<', 'p', '>'] ++ c ++ ['<', '/', 'p', '>']) = c
  have : (['<', 'p', '>'] ++ c ++ ['<', '/', 'p', '>'] : PyStr)
      = '<' :: 'p' :: '>' :: (c ++ ['<', '/', 'p', '>']) := by simp
  rw [this]
  show stripTagsAux false (c ++ ['<', '/', 'p', '>']) = c
  exact stripTagsAux_append_close h

/-- The stripped-text scanner never emits a `<`. -/
lemma stripTagsAux_not_mem_lt : ∀ (b : Bool) (s : PyStr), '<' ∉ stripTagsAux b s
  | _, [] => by simp [stripTagsAux]
  | true, c :: t => by
    by_cases hc : c = '>'
    · simpa [stripTagsAux, hc] using stripTagsAux_not_mem_lt false t
    · simpa [stripTagsAux, hc] using stripTagsAux_not_mem_lt true t
  | false, c :: t => by
    by_cases hc : c = '<'
    · simpa [stripTagsAux, hc] using stripTagsAux_not_mem_lt true t
    · have := stripTagsAux_not_mem_lt false t
      simp only [stripTagsAux, if_neg hc, List.mem_cons]
      rintro (h | h)
      · exact hc h.symm
      · exact this h

/-- Characters of a `split("\n")` piece come from the split string. -/
lemma mem_of_mem_splitOnNL : ∀ {s p : PyStr}, p ∈ splitOnNL s → ∀ {c}, c ∈ p → c ∈ s := by
  intro s
  induction s with
  | nil => intro p hp c hc; simp [splitOnNL] at hp; simp [hp] at hc
  | cons d t ih =>
    intro p hp c hc
    by_cases hd : d = '\n'
    · simp [splitOnNL, hd] at hp
      rcases hp with hp | hp
      · simp [hp] at hc
      · exact List.mem_cons_of_mem d (ih hp hc)
    · simp only [splitOnNL, if_neg hd] at hp
      rcases hsplit : splitOnNL t with _ | ⟨s0, ss⟩
      · rw [hsplit] at hp; simp at hp
        rw [hp] at hc; simp at hc
        simp [hc]
      · rw [hsplit] at hp; simp at hp
        rcases hp with hp | hp
        · rw [hp] at hc
          rcases List.mem_cons.mp hc with hc | hc
          · simp [hc]
          · exact List.mem_cons_of_mem d (ih (by rw [hsplit]; simp) hc)
        · exact List.mem_cons_of_mem d (ih (by rw [hsplit]; simp [hp]) hc)

/-- Characters of `s.strip()` come from `s`. -/
lemma mem_of_mem_pyStrip {s : PyStr} {c : Char} (hc : c ∈ pyStrip s) : c ∈ s := by
  unfold pyStrip at hc
  rw [List.mem_reverse] at hc
  have h1 := (List.dropWhile_sublist _).subset hc
  rw [List.mem_reverse] at h1
  exact (List.dropWhile_sublist _).subset h1

/-! ## "All chunks but the last are at least n long" -/

/-- Every chunk except the final one has length at least `n`. -/
def NonFinalAtLeast (n : Nat) : List PyStr → Prop
  | [] => True
  | [_] => True
  | c :: c2 :: rest => n ≤ c.length ∧ NonFinalAtLeast n (c2 :: rest)

instance NonFinalAtLeast.instDecidable (n : Nat) :
    (l : List PyStr) → Decidable (NonFinalAtLeast n l)
  | [] => .isTrue trivial
  | [_] => .isTrue trivial
  | c :: c2 :: rest =>
    have : Decidable (NonFinalAtLeast n (c2 :: rest)) := NonFinalAtLeast.instDecidable n _
    decidable_of_iff (n ≤ c.length ∧ NonFinalAtLeast n (c2 :: rest)) Iff.rfl

lemma nonFinalAtLeast_get {n : Nat} :
    ∀ {l : List PyStr}, NonFinalAtLeast n l → ∀ (i : Nat) (h : i + 1 < l.length),
      n ≤ (l.get ⟨i, Nat.lt_of_succ_lt h⟩).length := by
  intro l
  induction l with
  | nil => intro _ i h; simp at h
  | cons c rest ih =>
    intro hl i h
    cases rest with
    | nil => simp at h
    | cons c2 t =>
      obtain ⟨h1, h2⟩ := hl
      cases i with
      | zero => exact h1
      | succ j => exact ih h2 j (by simpa using h)

/-- The text-path accumulator only emits a chunk once it has reached the
low-water mark, so every chunk but the last is at least `lowMark` long. -/
lemma accumulateChunks_nonFinal (lowMark : Nat) :
    ∀ (raws : List PyStr) (current : PyStr), (∀ r ∈ raws, r ≠ []) →
      NonFinalAtLeast lowMark (accumulateChunks lowMark current raws) := by
  intro raws
  induction raws with
  | nil =>
    intro current _
    by_cases hc : current = [] <;> simp [accumulateChunks, hc, NonFinalAtLeast]
  | cons raw rest ih =>
    intro current hr
    have hraw : raw ≠ [] := hr raw (by simp)
    have hrest : ∀ r ∈ rest, r ≠ [] := fun r h => hr r (by simp [h])
    by_cases hc : current = []
    · simpa [accumulateChunks, hc] using ih raw hrest
    · simp only [accumulateChunks, if_neg hc]
      by_cases hlt : current.length < lowMark
      · simpa [if_pos hlt] using ih _ hrest
      · simp only [if_neg hlt]
        obtain ⟨x, xs, hx⟩ :=
          List.exists_cons_of_ne_nil (accumulateChunks_ne_nil lowMark rest raw hraw)
        rw [hx]
        exact ⟨Nat.le_of_not_lt hlt, hx ▸ ih raw hrest⟩

/-- **C10** (confirmed): plain-text segmentation loses no text — joining the
chunks returned by `_split_text_paragraphs` with `"\n"` equals joining the
stripped non-empty lines of the input with `"\n"`; nothing is lost,
duplicated, or reordered. -/
theorem C10_split_text_preserves_content (content : PyStr) :
    joinNL (splitTextParagraphs content) = joinNL (textBlocks content) := by
  unfold splitTextParagraphs
  cases hb : textBlocks content with
  | nil => simp [accumulateChunks]
  | cons b bs =>
    have hne : ∀ r ∈ textBlocks content, r ≠ [] := fun r h => textBlocks_ne_nil h
    rw [hb] at hne
    have hbne : b ≠ [] := hne b (by simp)
    have hbsne : ∀ r ∈ bs, r ≠ [] := fun r h => hne r (by simp [h])
    simp only [accumulateChunks, if_pos rfl]
    exact accumulateChunks_join 1000 bs b hbne hbsne

/-! ## Facts about long runs of `'a'` (concrete segmentation inputs) -/

lemma replicate_a_no_nl (n : Nat) : '\n' ∉ List.replicate n 'a' := by
  intro m
  have := List.eq_of_mem_replicate m
  simp at this

lemma replicate_a_no_lt (n : Nat) : '<' ∉ List.replicate n 'a' := by
  intro m
  have := List.eq_of_mem_replicate m
  simp at this

lemma replicate_a_no_space (n : Nat) : ∀ c ∈ List.replicate n 'a', isPySpace c = false := by
  intro c m
  rw [List.eq_of_mem_replicate m]
  decide

lemma replicate_a_ne_nil {n : Nat} (hn : n ≠ 0) : (List.replicate n 'a' : PyStr) ≠ [] := by
  intro h
  have hl := congrArg List.length h
  rw [List.length_replicate] at hl
  exact hn (by simpa using hl)

lemma replicate_a_length (n : Nat) : (List.replicate n 'a' : PyStr).length = n :=
  List.length_replicate n 'a'

lemma textBlocks_replicate_a {n : Nat} (hn : n ≠ 0) :
    textBlocks (List.replicate n 'a') = [List.replicate n 'a'] := by
  unfold textBlocks
  rw [splitOnNL_no_nl (replicate_a_no_nl n)]
  simp [pyStrip_eq_self (replicate_a_no_space n), List.filter, hn]

/-! ## The oversized-paragraph packer: bounds and emptiness -/

lemma packBlocks_ne_nil (maxLen : Nat) :
    ∀ (blocks : List PyStr) (current : PyStr), current ≠ [] →
      packBlocks maxLen current blocks ≠ [] := by
  intro blocks
  induction blocks with
  | nil => intro current hc; simp [packBlocks, hc]
  | cons b rest ih =>
    intro current hc
    simp only [packBlocks, if_neg hc]
    by_cases hle : current.length + b.length + 1 ≤ maxLen
    · simp only [if_pos hle]
      exact ih _ (by simp)
    · simp only [if_neg hle]
      exact List.cons_ne_nil _ _

/-- Invariant of the packer: if every incoming block fits in `maxLen` and the
running chunk does too, every emitted chunk fits in `maxLen`. -/
lemma packBlocks_bounded (maxLen : Nat) :
    ∀ (blocks : List PyStr) (current : PyStr),
      (∀ b ∈ blocks, b.length ≤ maxLen) → current.length ≤ maxLen →
      ∀ c ∈ packBlocks maxLen current blocks, c.length ≤ maxLen := by
  intro blocks
  induction blocks with
  | nil =>
    intro current _ hcur c hc
    by_cases h : current = []
    · simp [packBlocks, h] at hc
    · simp [packBlocks, h] at hc
      simpa [hc] using hcur
  | cons b rest ih =>
    intro current hb hcur c hc
    have hbfit : b.length ≤ maxLen := hb b (by simp)
    have hrest : ∀ x ∈ rest, x.length ≤ maxLen := fun x hx => hb x (by simp [hx])
    by_cases hcnil : current = []
    · rw [hcnil] at hc
      simp only [packBlocks, if_pos rfl] at hc
      exact ih b hrest hbfit c hc
    · simp only [packBlocks, if_neg hcnil] at hc
      by_cases hle : current.length + b.length + 1 ≤ maxLen
      · rw [if_pos hle] at hc
        refine ih _ hrest ?_ c hc
        simp only [List.length_append, List.length_cons]
        omega
      · rw [if_neg hle] at hc
        rcases List.mem_cons.mp hc with hc | hc
        · simpa [hc] using hcur
        · exact ih b hrest hbfit c hc

/-- The packer never invents a `<`: its chunks are joins of incoming blocks
with `'\n'`. -/
lemma packBlocks_no_lt (maxLen : Nat) :
    ∀ (blocks : List PyStr) (current : PyStr),
      (∀ b ∈ blocks, '<' ∉ b) → '<' ∉ current →
      ∀ c ∈ packBlocks maxLen current blocks, '<' ∉ c := by
  intro blocks
  induction blocks with
  | nil =>
    intro current _ hcur c hc
    by_cases h : current = []
    · simp [packBlocks, h] at hc
    · simp [packBlocks, h] at hc
      simpa [hc] using hcur
  | cons b rest ih =>
    intro current hb hcur c hc
    have hbni : '<' ∉ b := hb b (by simp)
    have hrest : ∀ x ∈ rest, '<' ∉ x := fun x hx => hb x (by simp [hx])
    by_cases hcnil : current = []
    · rw [hcnil] at hc
      simp only [packBlocks, if_pos rfl] at hc
      exact ih b hrest hbni c hc
    · simp only [packBlocks, if_neg hcnil] at hc
      by_cases hle : current.length + b.length + 1 ≤ maxLen
      · rw [if_pos hle] at hc
        refine ih _ hrest ?_ c hc
        intro hm
        rcases List.mem_append.mp hm with hm | hm
        · exact hcur hm
        · rcases List.mem_cons.mp hm with hm | hm
          · simp at hm
          · exact hbni hm
      · rw [if_neg hle] at hc
        rcases List.mem_cons.mp hc with hc | hc
        · rw [hc]; exact hcur
        · exact ih b hrest hbni c hc

lemma flatMap_ne_nil_of {α β : Type} {l : List α} {f : α → List β} {a : α}
    (ha : a ∈ l) (hfa : f a ≠ []) : l.flatMap f ≠ [] := by
  obtain ⟨x, hx⟩ := List.exists_mem_of_ne_nil _ hfa
  exact List.ne_nil_of_mem (List.mem_flatMap.mpr ⟨a, ha, hx⟩)

/-- Every character of a line of `textBlocks text` is a character of `text`. -/
lemma textBlocks_chars {text b : PyStr} (hb : b ∈ textBlocks text) {c : Char}
    (hc : c ∈ b) : c ∈ text := by
  have h1 := List.mem_filter.mp hb |>.1
  rw [List.mem_map] at h1
  obtain ⟨line, hline, rfl⟩ := h1
  exact mem_of_mem_splitOnNL hline (mem_of_mem_pyStrip hc)

/-! ## C1: the high-water mark of the oversized-splitting pass -/

/-- A lone line of 4001 characters: the oversized pass can only split at line
boundaries, so it passes this through as a single over-long chunk. -/
def c1Input : PyStr := List.replicate 4001 'a'

lemma splitOversizedOne_single_line {n : Nat} (hn : n ≠ 0) :
    splitOversizedOne 4000 (List.replicate n 'a') = [wrapP (List.replicate n 'a')] := by
  unfold splitOversizedOne
  rw [stripTags_eq_self (replicate_a_no_lt n), textBlocks_replicate_a hn]
  have hne : (List.replicate n 'a' : PyStr) ≠ [] := replicate_a_ne_nil hn
  have h1 : packBlocks 4000 ([] : PyStr) [List.replicate n 'a'] = [List.replicate n 'a'] := by
    simp only [packBlocks, if_pos rfl, if_neg hne, if_true]
  rw [h1, List.map_singleton]

/-- **C1** (counterexample): on the single paragraph `"a" * 4001` — one line of
stripped length 4001 — `_split_oversized_paragraphs` with
`max_text_length = 4000` returns a single chunk whose stripped-text length is
4001 > 4000: the lone oversized block is not split (there is no line boundary
to split at), refuting both "every produced chunk is ≤ 4000" and "a lone block
exceeding 4000 is split into multiple chunks". -/
theorem C1_counterexample :
    splitOversizedParagraphs [c1Input] 4000 = [wrapP c1Input] ∧
    4000 < (stripTags (wrapP c1Input)).length := by
  unfold c1Input
  constructor
  · unfold splitOversizedParagraphs
    rw [List.flatMap_cons, List.flatMap_nil, splitOversizedOne_single_line (by decide),
      List.append_nil]
    rw [if_neg (List.cons_ne_nil _ _)]
  · rw [stripTags_wrapP (replicate_a_no_lt 4001), replicate_a_length]
    omega

/-- **C1** (amended): every chunk produced by `_split_oversized_paragraphs`
with `max_text_length = 4000` has stripped-text length at most 4000, provided
every line of every input paragraph's stripped text is itself at most 4000
characters long and at least one paragraph has a non-empty stripped line.  (A
single line longer than 4000 is passed through unsplit, and if no paragraph
has any non-blank text the input list is returned unchanged.) -/
theorem C1_oversized_chunks_bounded (ps : List PyStr)
    (hb : ∀ p ∈ ps, ∀ b ∈ textBlocks (stripTags p), b.length ≤ 4000)
    (hsome : ∃ p ∈ ps, textBlocks (stripTags p) ≠ []) :
    ∀ chunk ∈ splitOversizedParagraphs ps 4000, (stripTags chunk).length ≤ 4000 := by
  unfold splitOversizedParagraphs
  obtain ⟨p0, hp0, htb⟩ := hsome
  have hone : splitOversizedOne 4000 p0 ≠ [] := by
    unfold splitOversizedOne
    obtain ⟨b0, bs, hb0⟩ := List.exists_cons_of_ne_nil htb
    rw [hb0]
    intro hmap
    rw [List.map_eq_nil_iff] at hmap
    have hb0ne : b0 ≠ [] := textBlocks_ne_nil (by rw [hb0]; simp)
    have : packBlocks 4000 ([] : PyStr) (b0 :: bs) = packBlocks 4000 b0 bs := by
      simp [packBlocks]
    rw [this] at hmap
    exact packBlocks_ne_nil 4000 bs b0 hb0ne hmap
  have hnorm : ps.flatMap (splitOversizedOne 4000) ≠ [] := flatMap_ne_nil_of hp0 hone
  simp only [if_neg hnorm]
  intro chunk hchunk
  rw [List.mem_flatMap] at hchunk
  obtain ⟨p, hp, hc⟩ := hchunk
  unfold splitOversizedOne at hc
  rw [List.mem_map] at hc
  obtain ⟨c, hcpack, rfl⟩ := hc
  have hnolt : ∀ b ∈ textBlocks (stripTags p), '<' ∉ b := by
    intro b hbmem hin
    exact stripTagsAux_not_mem_lt false p (textBlocks_chars hbmem hin)
  have hcnolt : '<' ∉ c := packBlocks_no_lt 4000 _ [] hnolt (by simp) c hcpack
  rw [stripTags_wrapP hcnolt]
  exact packBlocks_bounded 4000 _ [] (hb p hp) (by simp) c hcpack

/-- Witness for the amended C1 at the concrete input `["a"]`. -/
theorem C1_witness : (stripTags (wrapP ['a'])).length ≤ 4000 :=
  C1_oversized_chunks_bounded [['a']] (by decide) (by decide) (wrapP ['a']) (by decide)

/-! ## C6: the low-water mark -/

/-- A 500-character line followed by a 4000-character line: the merged chunk
(stripped length 4501) is re-split by the oversized pass into a 500-chunk and
a 4000-chunk, leaving a non-final chunk below the low-water mark. -/
def c6Input : PyStr := List.replicate 500 'a' ++ '\n' :: List.replicate 4000 'a'

lemma two_lines_no_lt (m n : Nat) :
    '<' ∉ (List.replicate m 'a' ++ '\n' :: List.replicate n 'a' : PyStr) := by
  intro hm
  rcases List.mem_append.mp hm with h | h
  · exact replicate_a_no_lt m h
  · rcases List.mem_cons.mp h with h | h
    · simp at h
    · exact replicate_a_no_lt n h

/-- `filter` keeps a head line known to be non-empty. -/
lemma filter_ne_nil_cons {l : PyStr} {ls : List PyStr} (h : l ≠ []) :
    (l :: ls).filter (fun x => x ≠ []) = l :: ls.filter (fun x => x ≠ []) := by
  rw [List.filter_cons_of_pos]
  simpa using h

lemma textBlocks_two_lines {m n : Nat} (hm : m ≠ 0) (hn : n ≠ 0) :
    textBlocks (List.replicate m 'a' ++ '\n' :: List.replicate n 'a') =
      [List.replicate m 'a', List.replicate n 'a'] := by
  unfold textBlocks
  rw [splitOnNL_append (replicate_a_no_nl m), splitOnNL_no_nl (replicate_a_no_nl n)]
  rw [List.map_cons, List.map_cons, List.map_nil,
    pyStrip_eq_self (replicate_a_no_space m), pyStrip_eq_self (replicate_a_no_space n)]
  rw [filter_ne_nil_cons (by simp [hm]), filter_ne_nil_cons (by simp [hn]), List.filter_nil]

lemma packBlocks_two_blocks_split {m n : Nat} (hm : m ≠ 0) (hn : n ≠ 0)
    (hbig : ¬(m + n + 1 ≤ 4000)) :
    packBlocks 4000 ([] : PyStr) [List.replicate m 'a', List.replicate n 'a'] =
      [List.replicate m 'a', List.replicate n 'a'] := by
  have hmne : (List.replicate m 'a' : PyStr) ≠ [] := replicate_a_ne_nil hm
  have hnne : (List.replicate n 'a' : PyStr) ≠ [] := replicate_a_ne_nil hn
  have hfit : ¬((List.replicate m 'a' : PyStr).length +
      (List.replicate n 'a' : PyStr).length + 1 ≤ 4000) := by
    rw [replicate_a_length, replicate_a_length]
    exact hbig
  simp only [packBlocks, if_pos rfl, if_neg hmne, if_neg hfit, if_neg hnne, if_true]

/-- The segmentation invariant claimed by the spec, on a produced chunk list:
every chunk except the final one has stripped-text length at least 1000. -/
def OnlyFinalBelowLowMark (chunks : List PyStr) : Prop :=
  NonFinalAtLeast 1000 (chunks.map stripTags)

/-- **C6** (counterexample): feeding the single paragraph
`"a"*500 + "\n" + "a"*4000` (stripped length 4501, so a legitimate lone chunk
for the merge stage) through `_split_oversized_paragraphs` with
`max_text_length = 4000` yields two chunks of stripped lengths 500 and 4000:
the *non-final* chunk is below the low-water mark 1000, refuting "only the
final paragraph of a book may be shorter than 1000". -/
theorem C6_counterexample :
    splitOversizedParagraphs [c6Input] 4000 =
      [wrapP (List.replicate 500 'a'), wrapP (List.replicate 4000 'a')] ∧
    ¬ OnlyFinalBelowLowMark (splitOversizedParagraphs [c6Input] 4000) := by
  have heval : splitOversizedParagraphs [c6Input] 4000 =
      [wrapP (List.replicate 500 'a'), wrapP (List.replicate 4000 'a')] := by
    have hone : splitOversizedOne 4000 c6Input =
        [wrapP (List.replicate 500 'a'), wrapP (List.replicate 4000 'a')] := by
      unfold splitOversizedOne c6Input
      rw [stripTags_eq_self (two_lines_no_lt 500 4000),
        textBlocks_two_lines (by decide) (by decide),
        packBlocks_two_blocks_split (by decide) (by decide) (by decide)]
      rw [List.map_cons, List.map_singleton]
    unfold splitOversizedParagraphs
    rw [List.flatMap_cons, List.flatMap_nil, hone, List.append_nil]
    rw [if_neg (List.cons_ne_nil _ _)]
  refine ⟨heval, ?_⟩
  rw [heval]
  unfold OnlyFinalBelowLowMark
  rw [List.map_cons, List.map_cons, List.map_nil,
    stripTags_wrapP (replicate_a_no_lt 500), stripTags_wrapP (replicate_a_no_lt 4000)]
  intro h
  have h1 : (1000 : Nat) ≤ (List.replicate 500 'a' : PyStr).length := h.1
  rw [replicate_a_length] at h1
  omega

/-- **C6** (amended): in the *plain-text* path `_split_text_paragraphs`, every
chunk except the final one has length at least the low-water mark 1000 (the
chunk is raw text, measured exactly as the accumulator measures it).  The
oversized-splitting pass, by contrast, can leave a non-final chunk below 1000
(see the counterexample). -/
theorem C6_text_nonfinal_at_least_low_mark (content : PyStr) (i : Nat)
    (h : i + 1 < (splitTextParagraphs content).length) :
    1000 ≤ ((splitTextParagraphs content).get ⟨i, Nat.lt_of_succ_lt h⟩).length := by
  have hnf : NonFinalAtLeast 1000 (splitTextParagraphs content) :=
    accumulateChunks_nonFinal 1000 (textBlocks content) []
      (fun r hr => textBlocks_ne_nil hr)
  exact nonFinalAtLeast_get hnf i h

/-- Witness input for C6: a 1000-character line then a short line. -/
def c6WitnessInput : PyStr := List.replicate 1000 'a' ++ '\n' :: ['b']

lemma c6WitnessInput_eval :
    splitTextParagraphs c6WitnessInput = [List.replicate 1000 'a', ['b']] := by
  unfold splitTextParagraphs c6WitnessInput
  have htb : textBlocks (List.replicate 1000 'a' ++ '\n' :: ['b']) =
      [List.replicate 1000 'a', ['b']] := by
    unfold textBlocks
    rw [splitOnNL_append (replicate_a_no_nl 1000), splitOnNL_no_nl (by decide)]
    rw [List.map_cons, List.map_cons, List.map_nil,
      pyStrip_eq_self (replicate_a_no_space 1000), show pyStrip ['b'] = ['b'] from rfl]
    rw [filter_ne_nil_cons (replicate_a_ne_nil (by decide)),
      filter_ne_nil_cons (by decide), List.filter_nil]
  rw [htb]
  have hne : (List.replicate 1000 'a' : PyStr) ≠ [] := replicate_a_ne_nil (by decide)
  have hfull : ¬((List.replicate 1000 'a' : PyStr).length < 1000) := by
    rw [replicate_a_length]; omega
  simp only [accumulateChunks, if_pos rfl, if_neg hne, if_neg hfull,
    if_neg (show (['b'] : PyStr) ≠ [] by decide), if_true]

/-- Witness for the amended C6 at a concrete two-chunk input. -/
theorem C6_witness :
    1000 ≤ ((splitTextParagraphs c6WitnessInput).get
      ⟨0, by rw [c6WitnessInput_eval]; decide⟩).length :=
  C6_text_nonfinal_at_least_low_mark c6WitnessInput 0 (by rw [c6WitnessInput_eval]; decide)

/-! ## C2: `word_count` versus stripped-text length -/

/-- **C2** (counterexample): `update_paragraph` recomputes
`word_count = len(content)` from the *raw* content, not the stripped text.
Updating a paragraph to the content `"<p>a</p>"` stores `word_count = 8`,
while the stripped-text length is 1 — so after an update the claimed invariant
`word_count = len(stripped(content))` fails. -/
theorem C2_counterexample :
    (updateParagraph ⟨1, [], 0⟩ ['<', 'p', '>', 'a', '<', '/', 'p', '>']).word_count = 8 ∧
    (stripTags (updateParagraph ⟨1, [], 0⟩
      ['<', 'p', '>', 'a', '<', '/', 'p', '>']).content).length = 1 := by
  constructor <;> decide

/-- **C2** (amended): after bulk creation in `process_book`, every paragraph's
`word_count` equals the length of the stripped-text rendering of its content;
after `update_paragraph`, however, `word_count` equals the *raw* length of the
new content (which coincides with the stripped length only for tag-free
content). -/
theorem C2_word_count (chunks : List PyStr) (r : ParagraphRec)
    (hr : r ∈ processBookParagraphs chunks) (p : ParagraphRec) (c : PyStr) :
    r.word_count = (stripTags r.content).length ∧
    (updateParagraph p c).word_count = c.length := by
  refine ⟨?_, rfl⟩
  unfold processBookParagraphs at hr
  rw [List.mem_map] at hr
  obtain ⟨ic, _, rfl⟩ := hr
  rfl

/-- Witness for the amended C2 at concrete inputs. -/
theorem C2_witness :
    (⟨1, ['a'], 1⟩ : ParagraphRec).word_count =
      (stripTags (⟨1, ['a'], 1⟩ : ParagraphRec).content).length ∧
    (updateParagraph ⟨1, [], 0⟩ ['x', 'y']).word_count = (['x', 'y'] : PyStr).length :=
  C2_word_count [['a']] ⟨1, ['a'], 1⟩ (by decide) ⟨1, [], 0⟩ ['x', 'y']

/-! ## C5: contiguity of sequence numbers -/

lemma map_sequence_filter (s : Nat) (recs : List ParagraphRec) :
    ((recs.filter (fun p => p.sequence ≠ s)).map (fun p => p.sequence)) =
      (recs.map (fun p => p.sequence)).filter (fun x => x ≠ s) := by
  induction recs with
  | nil => rfl
  | cons p rest ih =>
    by_cases h : p.sequence = s
    · rw [List.filter_cons_of_neg (by simp [h]), List.map_cons,
        List.filter_cons_of_neg (by simp [h]), ih]
    · rw [List.filter_cons_of_pos (by simp [h]), List.map_cons, List.map_cons,
        List.filter_cons_of_pos (by simp [h]), ih]

lemma map_sequence_shift (s : Nat) (recs : List ParagraphRec) :
    ((recs.map (fun p =>
        if s < p.sequence then { p with sequence := p.sequence - 1 } else p)).map
      (fun p => p.sequence)) =
      (recs.map (fun p => p.sequence)).map (fun x => if s < x then x - 1 else x) := by
  rw [List.map_map, List.map_map]
  apply List.map_congr_left
  intro p _
  by_cases h : s < p.sequence <;> simp [h]

lemma range'_map_pred (s n : Nat) :
    (List.range' (s + 1) n).map (fun x => if s < x then x - 1 else x) = List.range' s n := by
  rw [List.range'_eq_map_range, List.range'_eq_map_range, List.map_map]
  apply List.map_congr_left
  intro i hi
  have : s < s + 1 + i := by omega
  simp only [Function.comp]
  rw [if_pos this]
  omega

lemma filter_ne_of_not_mem {s : Nat} {l : List Nat} (h : s ∉ l) :
    l.filter (fun x => x ≠ s) = l := by
  apply List.filter_eq_self.mpr
  intro a ha
  simp only [ne_eq, decide_eq_true_eq]
  intro e
  exact h (e ▸ ha)

/-- Deleting `s` from the contiguous range `[a, a+n)` and shifting everything
above it down by one yields the contiguous range `[a, a+n-1)`. -/
lemma range'_delete_shift :
    ∀ (n a s : Nat), a ≤ s → s < a + n →
      ((List.range' a n).filter (fun x => x ≠ s)).map (fun x => if s < x then x - 1 else x) =
        List.range' a (n - 1) := by
  intro n
  induction n with
  | zero => intro a s h1 h2; omega
  | succ m ih =>
    intro a s h1 h2
    rw [List.range'_succ]
    by_cases has : a = s
    · subst has
      have hnot : a ∉ List.range' (a + 1) m := by
        intro hm
        rw [List.mem_range'_1] at hm
        omega
      rw [List.filter_cons_of_neg (by simp), filter_ne_of_not_mem hnot, range'_map_pred]
      simp
    · have halt : a < s := by omega
      rw [List.filter_cons_of_pos (by simpa using has)]
      rw [List.map_cons, if_neg (by omega)]
      rw [ih (a + 1) s (by omega) (by omega)]
      rcases m with - | k
      · omega
      · show a :: List.range' (a + 1) k = List.range' a (k + 1)
        rw [List.range'_succ]

/-- **C5** (confirmed): bulk creation numbers the paragraphs of a book
`1..N` with no gaps (`enumerate(paragraphs, 1)`), and single-paragraph
deletion preserves contiguity: deleting the paragraph with sequence `s` and
decrementing all later sequences yields exactly `1..N-1`. -/
theorem C5_sequences_contiguous (chunks : List PyStr) (recs : List ParagraphRec)
    (s n : Nat) (hrecs : recs.map (fun p => p.sequence) = List.range' 1 n)
    (hs1 : 1 ≤ s) (hsn : s ≤ n) :
    (processBookParagraphs chunks).map (fun p => p.sequence) =
      List.range' 1 chunks.length ∧
    (deleteParagraph recs s).map (fun p => p.sequence) = List.range' 1 (n - 1) := by
  constructor
  · unfold processBookParagraphs
    rw [List.map_map]
    rw [show ((fun p : ParagraphRec => p.sequence) ∘ fun ic : Nat × PyStr =>
        ({ sequence := ic.1 + 1, content := ic.2,
           word_count := (stripTags ic.2).length } : ParagraphRec)) =
        ((fun i => i + 1) ∘ Prod.fst) from rfl]
    rw [← List.map_map, List.enum_map_fst, List.range'_eq_map_range]
    apply List.map_congr_left
    intro i _
    show i + 1 = 1 + i
    omega
  · unfold deleteParagraph
    rw [map_sequence_shift, map_sequence_filter, hrecs]
    exact range'_delete_shift n 1 s hs1 (by omega)

/-- Witness for C5 at a two-paragraph book, deleting sequence 1. -/
theorem C5_witness :
    (processBookParagraphs [['a'], ['b']]).map (fun p => p.sequence) =
      List.range' 1 ([['a'], ['b']] : List PyStr).length ∧
    (deleteParagraph (processBookParagraphs [['a'], ['b']]) 1).map
      (fun p => p.sequence) = List.range' 1 (2 - 1) :=
  C5_sequences_contiguous [['a'], ['b']] (processBookParagraphs [['a'], ['b']])
    1 2 (by decide) (by decide) (by decide)

/-! ## C3: `AIService.generate_questions` — retry, validation, fallback

A backend behaviour is modelled as a function from the prompt string to
either a raised error (`Except.error`, covering transport failures and
JSON-parse failures in `_call_openai_api`) or the parsed `questions` list.
Each attempt uses a distinct prompt, so one function captures arbitrary
per-attempt behaviour. -/

/-- A parsed question object: a Python dict that may be missing keys.
`options` is the `options` sub-dict as an association list. -/
structure QuestionDict where
  question : Option String
  options : Option (List (String × String))
  correct_answer : Option String
deriving Repr, DecidableEq

/-- `k in options` for a dict modelled as an association list. -/
def hasKey (d : List (String × String)) (k : String) : Bool :=
  d.any (fun kv => kv.1 == k)

/-- One item's checks in `_validate_questions_format`: the three required
keys are present, the option set contains `A`..`D`, and `correct_answer`
is one of `A`..`D`. -/
def validQuestion (q : QuestionDict) : Bool :=
  match q.question, q.options, q.correct_answer with
  | some _, some opts, some c =>
    (["A", "B", "C", "D"].all (fun k => hasKey opts k)) && (["A", "B", "C", "D"].contains c)
  | _, _, _ => false

/-- `AIService._validate_questions_format`: exactly five items, each passing
the per-item checks. -/
def validateQuestionsFormat (qs : List QuestionDict) : Bool :=
  qs.length == 5 && qs.all validQuestion

/-- The fixed default question of `_get_default_questions`. -/
def defaultQuestion : QuestionDict :=
  { question := some "根据文本内容，以下哪项描述是正确的？",
    options := some [("A", "选项A"), ("B", "选项B"), ("C", "选项C"), ("D", "选项D")],
    correct_answer := some "A" }

/-- `AIService._get_default_questions`: the same default item five times. -/
def defaultQuestions : List QuestionDict := List.replicate 5 defaultQuestion

/-- The schema-constrained base prompt of `generate_questions` (literal braces
of the embedded JSON template written as their escapes). -/
def basePrompt (content : String) : String :=
  "请根据以下文本内容，生成5道阅读理解选择题。\n\n文本内容：\n" ++ content ++
  "\n\n要求：\n1. 生成5道选择题\n2. 每道题有4个选项（A、B、C、D）\n3. 题目应该测试对文本内容的理解\n4. 包含文本细节和主旨理解\n5. 请严格按照以下JSON格式返回：\n\n\x7b\n  \"questions\": [\n    \x7b\n      \"question\": \"问题内容\",\n      \"options\": \x7b\n        \"A\": \"选项A内容\",\n        \"B\": \"选项B内容\",\n        \"C\": \"选项C内容\",\n        \"D\": \"选项D内容\"\n      \x7d,\n      \"correct_answer\": \"A\"\n    \x7d\n  ]\n\x7d\n\n请确保返回的是有效的JSON格式，直接返回json对象，除此之外不要返回任何其他内容。"

/-- The stronger formatting instruction appended on retry `attempt` (> 0). -/
def retryInstruction (attempt : Nat) : String :=
  "\n\n【注意】这是你第" ++ toString attempt ++
  "次重试。上次返回的格式不正确，请确保严格按照上述JSON格式返回5道完整的选择题，包含question、options（A/B/C/D四个选项）和correct_answer字段。"

/-- The prompt used on attempt `i` (0-based): the base prompt, with the
stronger instruction appended from the first retry on. -/
def promptFor (content : String) (i : Nat) : String :=
  if 0 < i then basePrompt content ++ retryInstruction i else basePrompt content

/-- One attempt of the retry loop: call the backend with attempt `i`'s
prompt; a raised error or a response failing validation counts as no result. -/
def attemptOutcome (backend : String → Except Unit (List QuestionDict))
    (content : String) (i : Nat) : Option (List QuestionDict) :=
  match backend (promptFor content i) with
  | .error _ => none
  | .ok qs => if validateQuestionsFormat qs then some qs else none

/-- `AIService.generate_questions` with `max_retries = 2`, unrolled: up to
three attempts, returning the first validated response and the number of
backend calls made; after three failed attempts, the default question set. -/
def generateQuestions (backend : String → Except Unit (List QuestionDict))
    (content : String) : List QuestionDict × Nat :=
  match attemptOutcome backend content 0 with
  | some qs => (qs, 1)
  | none =>
    match attemptOutcome backend content 1 with
    | some qs => (qs, 2)
    | none =>
      match attemptOutcome backend content 2 with
      | some qs => (qs, 3)
      | none => (defaultQuestions, 3)

lemma attemptOutcome_valid {backend : String → Except Unit (List QuestionDict)}
    {content : String} {i : Nat} {qs : List QuestionDict}
    (h : attemptOutcome backend content i = some qs) :
    validateQuestionsFormat qs = true := by
  unfold attemptOutcome at h
  split at h
  · exact absurd h (by simp)
  · split at h
    · cases h
      assumption
    · exact absurd h (by simp)

lemma generateQuestions_first {backend : String → Except Unit (List QuestionDict)}
    {content : String} {qs : List QuestionDict}
    (h0 : attemptOutcome backend content 0 = some qs) :
    generateQuestions backend content = (qs, 1) := by
  unfold generateQuestions
  rw [h0]

lemma generateQuestions_second {backend : String → Except Unit (List QuestionDict)}
    {content : String} {qs : List QuestionDict}
    (h0 : attemptOutcome backend content 0 = none)
    (h1 : attemptOutcome backend content 1 = some qs) :
    generateQuestions backend content = (qs, 2) := by
  unfold generateQuestions
  rw [h0, h1]

lemma generateQuestions_third {backend : String → Except Unit (List QuestionDict)}
    {content : String} {qs : List QuestionDict}
    (h0 : attemptOutcome backend content 0 = none)
    (h1 : attemptOutcome backend content 1 = none)
    (h2 : attemptOutcome backend content 2 = some qs) :
    generateQuestions backend content = (qs, 3) := by
  unfold generateQuestions
  rw [h0, h1, h2]

lemma generateQuestions_fallback {backend : String → Except Unit (List QuestionDict)}
    {content : String}
    (h0 : attemptOutcome backend content 0 = none)
    (h1 : attemptOutcome backend content 1 = none)
    (h2 : attemptOutcome backend content 2 = none) :
    generateQuestions backend content = (defaultQuestions, 3) := by
  unfold generateQuestions
  rw [h0, h1, h2]

lemma validateQuestionsFormat_default : validateQuestionsFormat defaultQuestions = true := by
  decide

/-- **C3** (confirmed): for every paragraph text and every backend behaviour,
`generate_questions` makes at most 3 backend calls (attempt 0 plus at most two
retries, each retry's prompt being the base prompt with the stronger
formatting instruction appended), and always returns a list passing
`_validate_questions_format` (hence exactly five questions): namely the first
response that validates, or the fixed default five-question set when no
attempt validates. -/
theorem C3_generate_questions_retry_fallback
    (backend : String → Except Unit (List QuestionDict)) (content : String) :
    (generateQuestions backend content).2 ≤ 3 ∧
    validateQuestionsFormat (generateQuestions backend content).1 = true ∧
    (∀ i : Nat, 0 < i →
      promptFor content i = basePrompt content ++ retryInstruction i) ∧
    ((∃ i, i < 3 ∧ attemptOutcome backend content i =
          some (generateQuestions backend content).1 ∧
        ∀ j, j < i → attemptOutcome backend content j = none) ∨
      ((generateQuestions backend content).1 = defaultQuestions ∧
        ∀ j, j < 3 → attemptOutcome backend content j = none)) := by
  have hprompt : ∀ i : Nat, 0 < i →
      promptFor content i = basePrompt content ++ retryInstruction i := by
    intro i hi
    unfold promptFor
    rw [if_pos hi]
  rcases h0 : attemptOutcome backend content 0 with - | qs0
  · rcases h1 : attemptOutcome backend content 1 with - | qs1
    · rcases h2 : attemptOutcome backend content 2 with - | qs2
      · rw [generateQuestions_fallback h0 h1 h2]
        refine ⟨by omega, validateQuestionsFormat_default, hprompt, Or.inr ⟨rfl, ?_⟩⟩
        intro j hj
        rcases (by omega : j = 0 ∨ j = 1 ∨ j = 2) with rfl | rfl | rfl
        · exact h0
        · exact h1
        · exact h2
      · rw [generateQuestions_third h0 h1 h2]
        refine ⟨by omega, attemptOutcome_valid h2, hprompt, Or.inl ⟨2, by omega, h2, ?_⟩⟩
        intro j hj
        rcases (by omega : j = 0 ∨ j = 1) with rfl | rfl
        · exact h0
        · exact h1
    · rw [generateQuestions_second h0 h1]
      refine ⟨by omega, attemptOutcome_valid h1, hprompt, Or.inl ⟨1, by omega, h1, ?_⟩⟩
      intro j hj
      have : j = 0 := by omega
      subst this
      exact h0
  · rw [generateQuestions_first h0]
    exact ⟨by omega, attemptOutcome_valid h0, hprompt,
      Or.inl ⟨0, by omega, h0, fun j hj => absurd hj (by omega)⟩⟩

/-! ## C8: `_read_file` encoding fallback for `.txt`

The file's bytes are abstracted as a function `decode` giving, per candidate
encoding, either the decoded text or `none` (a `UnicodeDecodeError`); the
markdown-to-HTML transform `_convert_markdown_to_html` is abstracted as an
arbitrary function `convert` — C8 constrains only which decoded content gets
converted and when the reader raises, not the conversion itself. -/

/-- The candidate text encodings, in the fixed order tried by `_read_file`. -/
inductive TxtEncoding
  | utf8
  | gbk
  | gb2312
  | utf16
deriving DecidableEq, Repr

/-- `encodings = ["utf-8", "gbk", "gb2312", "utf-16"]` (line 76). -/
def txtEncodings : List TxtEncoding :=
  [TxtEncoding.utf8, TxtEncoding.gbk, TxtEncoding.gb2312, TxtEncoding.utf16]

/-- The `for encoding in encodings` loop of `_read_file` (lines 77-85): return
`convert(content)` for the first encoding that decodes; raise
`"无法识别文件编码"` when the list is exhausted. -/
def readTxtLoop (decode : TxtEncoding → Option String) (convert : String → String) :
    List TxtEncoding → Except String String
  | [] => Except.error "无法识别文件编码"
  | e :: rest =>
    match decode e with
    | some content => Except.ok (convert content)
    | none => readTxtLoop decode convert rest

/-- `_read_file` on a `.txt` path. -/
def readTxtFile (decode : TxtEncoding → Option String) (convert : String → String) :
    Except String String :=
  readTxtLoop decode convert txtEncodings

/-- **C8** (confirmed): `_read_file` on a `.txt` file tries utf-8, gbk,
gb2312, utf-16 in that order; it raises (encoding undetected) iff every
candidate fails to decode — returning no partial result in that case — and
whenever the `i`-th candidate is the first to decode, it returns exactly the
markdown-to-HTML conversion of that candidate's decoded content. -/
theorem C8_txt_encoding_fallback (decode : TxtEncoding → Option String)
    (convert : String → String) :
    (readTxtFile decode convert = Except.error "无法识别文件编码" ↔
      decode TxtEncoding.utf8 = none ∧ decode TxtEncoding.gbk = none ∧
        decode TxtEncoding.gb2312 = none ∧ decode TxtEncoding.utf16 = none) ∧
    (∀ i : Nat, ∀ hi : i < txtEncodings.length, ∀ c : String,
      decode (txtEncodings.get ⟨i, hi⟩) = some c →
      (∀ j : Nat, ∀ hj : j < i, decode (txtEncodings.get ⟨j, Nat.lt_trans hj hi⟩) = none) →
      readTxtFile decode convert = Except.ok (convert c)) := by
  constructor
  · rcases h0 : decode TxtEncoding.utf8 with - | c0 <;>
      rcases h1 : decode TxtEncoding.gbk with - | c1 <;>
        rcases h2 : decode TxtEncoding.gb2312 with - | c2 <;>
          rcases h3 : decode TxtEncoding.utf16 with - | c3 <;>
            simp [readTxtFile, readTxtLoop, txtEncodings, h0, h1, h2, h3]
  · intro i hi c hdec hprev
    have hi4 : i < 4 := by simpa [txtEncodings] using hi
    interval_cases i
    · simp only [txtEncodings, List.get] at hdec
      simp [readTxtFile, readTxtLoop, txtEncodings, hdec]
    · have e0 : decode TxtEncoding.utf8 = none := hprev 0 (by omega)
      simp only [txtEncodings, List.get] at hdec
      simp [readTxtFile, readTxtLoop, txtEncodings, e0, hdec]
    · have e0 : decode TxtEncoding.utf8 = none := hprev 0 (by omega)
      have e1 : decode TxtEncoding.gbk = none := hprev 1 (by omega)
      simp only [txtEncodings, List.get] at hdec
      simp [readTxtFile, readTxtLoop, txtEncodings, e0, e1, hdec]
    · have e0 : decode TxtEncoding.utf8 = none := hprev 0 (by omega)
      have e1 : decode TxtEncoding.gbk = none := hprev 1 (by omega)
      have e2 : decode TxtEncoding.gb2312 = none := hprev 2 (by omega)
      simp only [txtEncodings, List.get] at hdec
      simp [readTxtFile, readTxtLoop, txtEncodings, e0, e1, e2, hdec]

/-- Witness for C8: a file that only gbk decodes, converted by `id`. -/
theorem C8_witness :
    readTxtFile
      (fun e => if e = TxtEncoding.gbk then some "正文" else none) id =
      Except.ok (id "正文") :=
  (C8_txt_encoding_fallback
      (fun e => if e = TxtEncoding.gbk then some "正文" else none) id).2
    1 (by decide) "正文" rfl
    (fun j hj => by
      have : j = 0 := by omega
      subst this
      rfl)

/-! ## C9: `_save_image_bytes` — content-addressed, idempotent image storage

Bytes are modelled as `List Nat`; the filesystem as the list of relative
paths that exist under `uploads/book_images`; `hashlib.md5(...).hexdigest()`
as an arbitrary function `digestFn` of the bytes (the claims depend only on
the digest being a deterministic function of the content, which holds for
every `digestFn`). -/

/-- The per-run image state of a `BookProcessor`: the `_saved_image_map`
cache (cache key → URL) plus the files existing on disk (relative to the
`book_images` root). -/
structure ImageStore where
  savedImageMap : List (String × String)
  files : List String
deriving Repr, DecidableEq

/-- The known image extensions accepted from the source name (line 321). -/
def knownImageExts : List String :=
  [".jpg", ".jpeg", ".png", ".gif", ".webp", ".bmp", ".svg"]

/-- Index of the last occurrence of `c` in `cs`, if any. -/
def lastIndexOf (c : Char) (cs : List Char) : Option Nat :=
  (cs.enum.foldl (fun acc p => if p.2 = c then some p.1 else acc) none)

/-- `os.path.splitext(name)[1]` (posix): the suffix from the last `.` of the
final path component, unless that component consists only of leading dots up
to it. -/
def splitextSuffix (name : String) : String :=
  let cs := name.data
  match lastIndexOf '.' cs with
  | none => ""
  | some dotIndex =>
    let startIndex := match lastIndexOf '/' cs with
      | none => 0
      | some sepIndex => sepIndex + 1
    if startIndex ≤ dotIndex then
      if (List.range' startIndex (dotIndex - startIndex)).any
          (fun k => cs.getD k '.' ≠ '.') then
        String.mk (cs.drop dotIndex)
      else ""
    else ""

/-- `bytes.startswith(sig)`. -/
def bytesStartWith (sig data : List Nat) : Bool := sig.isPrefixOf data

/-- `BookProcessor._guess_image_ext` (lines 319-333): extension from the
source name when recognised, else magic-byte sniffing, defaulting to `.jpg`. -/
def guessImageExt (sourceName : String) (imageData : List Nat) : String :=
  let ext := (splitextSuffix sourceName).toLower
  if ext ∈ knownImageExts then ext
  else if bytesStartWith [0x89, 0x50, 0x4E, 0x47, 0x0D, 0x0A, 0x1A, 0x0A] imageData then ".png"
  else if bytesStartWith [0xFF, 0xD8] imageData then ".jpg"
  else if bytesStartWith [0x47, 0x49, 0x46, 0x38] imageData then ".gif"
  else if bytesStartWith [0x52, 0x49, 0x46, 0x46] imageData then ".webp"
  else if bytesStartWith [0x42, 0x4D] imageData then ".bmp"
  else ".jpg"

/-- `BookProcessor._save_image_bytes` (lines 335-359).  Returns the public
URL, the new store state, and the number of file writes performed (0 or 1).
Empty bytes short-circuit to the empty URL; a cache hit returns the cached
URL untouched; otherwise the file is written only if its content-hash-keyed
path does not already exist. -/
def saveImageBytes (digestFn : List Nat → String) (bookId : Nat)
    (sourceName : String) (imageData : List Nat) (s : ImageStore) :
    String × ImageStore × Nat :=
  if imageData = [] then ("", s, 0)
  else
    let digest := digestFn imageData
    let cacheKey := toString bookId ++ ":" ++ digest
    match s.savedImageMap.lookup cacheKey with
    | some url => (url, s, 0)
    | none =>
      let ext := guessImageExt sourceName imageData
      let filename := "img_" ++ digest.take 16 ++ ext
      let bookDirName := "book_" ++ toString bookId
      let filePath := bookDirName ++ "/" ++ filename
      let (files, writes) :=
        if filePath ∈ s.files then (s.files, 0) else (s.files ++ [filePath], 1)
      let url := "/book-images/" ++ bookDirName ++ "/" ++ filename
      (url, { savedImageMap := s.savedImageMap ++ [(cacheKey, url)], files := files }, writes)

/-- **C9** (counterexample): for the *empty* byte string `_save_image_bytes`
returns the empty URL and never stores a file — two identical calls perform
zero writes in total, not "exactly once" as the claim states for every byte
string. -/
theorem C9_counterexample :
    (saveImageBytes (fun _ => "d0") 1 "a.png" [] ⟨[], []⟩).1 = "" ∧
    (saveImageBytes (fun _ => "d0") 1 "a.png" []
        (saveImageBytes (fun _ => "d0") 1 "a.png" [] ⟨[], []⟩).2.1).1 = "" ∧
    (saveImageBytes (fun _ => "d0") 1 "a.png" [] ⟨[], []⟩).2.2 +
      (saveImageBytes (fun _ => "d0") 1 "a.png" []
        (saveImageBytes (fun _ => "d0") 1 "a.png" [] ⟨[], []⟩).2.1).2.2 = 0 := by
  refine ⟨rfl, rfl, rfl⟩

/-- **C9** (amended): for every *non-empty* byte string, relocating the same
`(book_id, bytes)` pair twice in one ingestion run (fresh cache, file not yet
present) returns identical URLs, writes the file exactly once — the second
call hits the `_saved_image_map` cache and performs no write and no state
change — and the single stored path is keyed by the content hash of the
bytes.  For empty bytes no file is ever stored (see the counterexample). -/
theorem C9_image_relocation_idempotent (digestFn : List Nat → String)
    (bookId : Nat) (name1 name2 : String) (data : List Nat) (hne : data ≠ []) :
    (saveImageBytes digestFn bookId name2 data
        (saveImageBytes digestFn bookId name1 data ⟨[], []⟩).2.1).1 =
      (saveImageBytes digestFn bookId name1 data ⟨[], []⟩).1 ∧
    (saveImageBytes digestFn bookId name2 data
        (saveImageBytes digestFn bookId name1 data ⟨[], []⟩).2.1).2.1 =
      (saveImageBytes digestFn bookId name1 data ⟨[], []⟩).2.1 ∧
    (saveImageBytes digestFn bookId name1 data ⟨[], []⟩).2.2 = 1 ∧
    (saveImageBytes digestFn bookId name2 data
        (saveImageBytes digestFn bookId name1 data ⟨[], []⟩).2.1).2.2 = 0 ∧
    (saveImageBytes digestFn bookId name1 data ⟨[], []⟩).2.1.files =
      ["book_" ++ toString bookId ++ "/" ++
        ("img_" ++ (digestFn data).take 16 ++ guessImageExt name1 data)] := by
  have hkey : (([] : List (String × String)).lookup
      (toString bookId ++ ":" ++ digestFn data)) = none := rfl
  have h1 : saveImageBytes digestFn bookId name1 data ⟨[], []⟩ =
      ("/book-images/" ++ ("book_" ++ toString bookId) ++ "/" ++
          ("img_" ++ (digestFn data).take 16 ++ guessImageExt name1 data),
        { savedImageMap := [(toString bookId ++ ":" ++ digestFn data,
            "/book-images/" ++ ("book_" ++ toString bookId) ++ "/" ++
              ("img_" ++ (digestFn data).take 16 ++ guessImageExt name1 data))],
          files := [("book_" ++ toString bookId) ++ "/" ++
            ("img_" ++ (digestFn data).take 16 ++ guessImageExt name1 data)] }, 1) := by
    unfold saveImageBytes
    rw [if_neg hne]
    simp
  have hlook : ([(toString bookId ++ ":" ++ digestFn data,
      "/book-images/" ++ ("book_" ++ toString bookId) ++ "/" ++
        ("img_" ++ (digestFn data).take 16 ++ guessImageExt name1 data))].lookup
      (toString bookId ++ ":" ++ digestFn data)) =
      some ("/book-images/" ++ ("book_" ++ toString bookId) ++ "/" ++
        ("img_" ++ (digestFn data).take 16 ++ guessImageExt name1 data)) := by
    simp [List.lookup]
  have h2 : saveImageBytes digestFn bookId name2 data
      (saveImageBytes digestFn bookId name1 data ⟨[], []⟩).2.1 =
      ((saveImageBytes digestFn bookId name1 data ⟨[], []⟩).1,
        (saveImageBytes digestFn bookId name1 data ⟨[], []⟩).2.1, 0) := by
    rw [h1]
    unfold saveImageBytes
    rw [if_neg hne]
    simp [List.lookup]
  refine ⟨?_, ?_, ?_, ?_, ?_⟩
  · rw [h2]
  · rw [h2]
  · rw [h1]
  · rw [h2]
  · rw [h1]

/-- Witness for the amended C9 at concrete inputs. -/
theorem C9_witness :
    (saveImageBytes (fun _ => "d1d2") 7 "pic2.png" [255, 216]
        (saveImageBytes (fun _ => "d1d2") 7 "pic.png" [255, 216] ⟨[], []⟩).2.1).1 =
      (saveImageBytes (fun _ => "d1d2") 7 "pic.png" [255, 216] ⟨[], []⟩).1 ∧
    (saveImageBytes (fun _ => "d1d2") 7 "pic2.png" [255, 216]
        (saveImageBytes (fun _ => "d1d2") 7 "pic.png" [255, 216] ⟨[], []⟩).2.1).2.1 =
      (saveImageBytes (fun _ => "d1d2") 7 "pic.png" [255, 216] ⟨[], []⟩).2.1 ∧
    (saveImageBytes (fun _ => "d1d2") 7 "pic.png" [255, 216] ⟨[], []⟩).2.2 = 1 ∧
    (saveImageBytes (fun _ => "d1d2") 7 "pic2.png" [255, 216]
        (saveImageBytes (fun _ => "d1d2") 7 "pic.png" [255, 216] ⟨[], []⟩).2.1).2.2 = 0 ∧
    (saveImageBytes (fun _ => "d1d2") 7 "pic.png" [255, 216] ⟨[], []⟩).2.1.files =
      ["book_" ++ toString 7 ++ "/" ++
        ("img_" ++ (("d1d2" : String)).take 16 ++ guessImageExt "pic.png" [255, 216])] :=
  C9_image_relocation_idempotent (fun _ => "d1d2") 7 "pic.png" "pic2.png"
    [255, 216] (by decide)

/-! ## C7: rollback on ingestion failure (`upload_book`, books.py)

The externally visible artefacts of one upload: the committed book row, the
saved upload file, the extracted/uploaded cover file, the image files written
under `uploads/book_images/book_{id}/` by `_save_image_bytes` during
`process_book`, and the committed paragraph rows (`process_book` commits them
in a single `db.commit()` at its end, so none are committed when it raises). -/

structure UploadState where
  bookRecord : Bool
  uploadedFile : Bool
  coverImage : Bool
  relocatedImages : Nat
  paragraphRecords : Nat
deriving Repr, DecidableEq

/-- One ingestion attempt: how many image files `_save_image_bytes` had
written when `process_book` finished or raised, how many paragraphs it would
commit, and whether it raised. -/
structure IngestAttempt where
  imagesWritten : Nat
  paragraphCount : Nat
  fails : Bool
deriving Repr, DecidableEq

/-- The `except` block of `upload_book` (books.py lines 137-146): on a
`process_book` failure it deletes the book row (`db.delete(db_book)`),
removes the uploaded file (`os.remove(file_path)`) and deletes the cover
image — and nothing else. -/
def uploadFailureCleanup (s : UploadState) : UploadState :=
  { s with bookRecord := false, uploadedFile := false, coverImage := false }

/-- `upload_book` (lines 85-150): save the file, extract the cover, commit
the book row, run `process_book` (writing `imagesWritten` image files and, on
success only, committing the paragraph rows), and on failure run the
compensation handler. -/
def uploadBook (a : IngestAttempt) (hasCover : Bool) : UploadState :=
  let afterProcess : UploadState :=
    { bookRecord := true
      uploadedFile := true
      coverImage := hasCover
      relocatedImages := a.imagesWritten
      paragraphRecords := if a.fails then 0 else a.paragraphCount }
  if a.fails then uploadFailureCleanup afterProcess else afterProcess

/-- **C7** (counterexample): an upload that relocated one image and then
failed. After the rollback the book row, the uploaded file and the cover are
gone, but the relocated image file is still on disk — the cleanup handler
never touches `uploads/book_images`, refuting "rolls back … all relocated
image files". -/
theorem C7_counterexample :
    (uploadBook ⟨1, 0, true⟩ true).bookRecord = false ∧
    (uploadBook ⟨1, 0, true⟩ true).uploadedFile = false ∧
    (uploadBook ⟨1, 0, true⟩ true).coverImage = false ∧
    (uploadBook ⟨1, 0, true⟩ true).relocatedImages = 1 := by
  refine ⟨rfl, rfl, rfl, rfl⟩

/-- **C7** (amended): on failure of any ingestion stage the orchestrator
deletes the book record, the uploaded file and the cover image, and no
paragraph row is left committed (`process_book` commits only at its end);
the image files already relocated by `_save_image_bytes` are, however, left
in place. -/
theorem C7_failure_cleanup (a : IngestAttempt) (hasCover : Bool)
    (hf : a.fails = true) :
    uploadBook a hasCover =
      { bookRecord := false, uploadedFile := false, coverImage := false,
        relocatedImages := a.imagesWritten, paragraphRecords := 0 } := by
  unfold uploadBook uploadFailureCleanup
  rw [hf]
  simp

/-- Witness for the amended C7. -/
theorem C7_witness :
    uploadBook ⟨2, 3, true⟩ true =
      { bookRecord := false, uploadedFile := false, coverImage := false,
        relocatedImages := 2, paragraphRecords := 0 } :=
  C7_failure_cleanup ⟨2, 3, true⟩ true rfl

/-! ## C4: at most one generation unit per paragraph id

State of the question-generation coordinator (`reading_service.py`, mirrored
by `api/reading.py`): the in-memory `_generating_tasks` registry, the
persisted question counts, plus event logs of the generation units spawned
and the persist operations executed.  `start_question_generation` holds
`_generating_lock` across its membership check, the insertion of the
`generating` entry and the thread launch, so that whole block is one atomic
step; the background worker's "check persisted, save five questions, mark
completed" runs against a sequentially consistent store and is modelled as
one step (it persists before it marks completed, so no later check can
observe `completed` with an empty store). -/

inductive TaskStatus
  | generating
  | completed
  | failed
deriving DecidableEq, Repr

structure CoordState where
  tasks : List (Nat × TaskStatus)
  questionsPersisted : List (Nat × Nat)
  spawned : List Nat
  persists : List Nat
deriving Repr, DecidableEq

def initCoord : CoordState := ⟨[], [], [], []⟩

/-- `_generating_tasks[pid] = {...}`: dict assignment, modelled by consing
(lookup takes the first hit). -/
def setTask (tasks : List (Nat × TaskStatus)) (pid : Nat) (st : TaskStatus) :
    List (Nat × TaskStatus) :=
  (pid, st) :: tasks

/-- `start_question_generation` (reading_service.py lines 62-75): under
`_generating_lock`, if no entry exists, create a `generating` entry and
launch one background unit of work; otherwise do nothing. -/
def startQuestionGeneration (pid : Nat) (s : CoordState) : CoordState :=
  match s.tasks.lookup pid with
  | some _ => s
  | none =>
    { s with tasks := setTask s.tasks pid TaskStatus.generating,
             spawned := s.spawned ++ [pid] }

def questionCount (s : CoordState) (pid : Nat) : Nat :=
  (s.questionsPersisted.lookup pid).getD 0

/-- `_generate_questions_async` (lines 146-205) on the path where persistence
succeeds: if questions already exist, just mark completed; otherwise persist
the five generated (or default) questions and mark completed. -/
def runGenerationWorker (pid : Nat) (s : CoordState) : CoordState :=
  if 0 < questionCount s pid then
    { s with tasks := setTask s.tasks pid TaskStatus.completed }
  else
    { s with questionsPersisted := (pid, 5) :: s.questionsPersisted,
             persists := s.persists ++ [pid],
             tasks := setTask s.tasks pid TaskStatus.completed }

def iterateStep (f : CoordState → CoordState) : Nat → CoordState → CoordState
  | 0, s => s
  | n + 1, s => iterateStep f n (f s)

/-- The scenario of N concurrent status checks against a paragraph with no
persisted questions: since the locked check-and-create blocks are serialized
by `_generating_lock` and the spawned worker runs after the first of them,
every interleaving is `k` locked blocks (`k ≥ 1`), then the worker, then the
remaining `m` locked blocks.  (Callers that observe the entry outside the
lock and return early contribute no event at all.) -/
def c4Run (pid k m : Nat) : CoordState :=
  iterateStep (startQuestionGeneration pid) m
    (runGenerationWorker pid (iterateStep (startQuestionGeneration pid) k initCoord))

lemma startQuestionGeneration_noop {pid : Nat} {s : CoordState} {st : TaskStatus}
    (h : s.tasks.lookup pid = some st) : startQuestionGeneration pid s = s := by
  unfold startQuestionGeneration
  rw [h]

lemma iterateStep_start_noop {pid : Nat} {s : CoordState} {st : TaskStatus}
    (h : s.tasks.lookup pid = some st) :
    ∀ n, iterateStep (startQuestionGeneration pid) n s = s := by
  intro n
  induction n with
  | zero => rfl
  | succ j ih =>
    show iterateStep (startQuestionGeneration pid) j (startQuestionGeneration pid s) = s
    rw [startQuestionGeneration_noop h, ih]

lemma lookup_cons_self {β : Type} (pid : Nat) (x : β) (rest : List (Nat × β)) :
    ((pid, x) :: rest).lookup pid = some x := by
  simp [List.lookup]

/-- **C4** (confirmed): for every paragraph id with no persisted questions
and no task entry, any number of serialized locked check-and-create blocks
(`k + m ≥ 1` of them, the single worker completing somewhere after the first)
spawns exactly one background generation unit and persists exactly one set of
five questions: the first locked block inserts the `generating` entry and
spawns; every later block sees the entry and spawns nothing. -/
theorem C4_single_generation_unit (pid k m : Nat) (hk : 1 ≤ k) :
    (c4Run pid k m).spawned = [pid] ∧
    (c4Run pid k m).persists = [pid] ∧
    questionCount (c4Run pid k m) pid = 5 := by
  obtain ⟨j, rfl⟩ : ∃ j, k = j + 1 := ⟨k - 1, by omega⟩
  have hfirst : startQuestionGeneration pid initCoord =
      { tasks := [(pid, TaskStatus.generating)], questionsPersisted := [],
        spawned := [pid], persists := [] } := rfl
  have hs1 : iterateStep (startQuestionGeneration pid) (j + 1) initCoord =
      { tasks := [(pid, TaskStatus.generating)], questionsPersisted := [],
        spawned := [pid], persists := [] } := by
    show iterateStep (startQuestionGeneration pid) j
        (startQuestionGeneration pid initCoord) = _
    rw [hfirst, iterateStep_start_noop (lookup_cons_self pid TaskStatus.generating [])]
  have hs2 : runGenerationWorker pid
      ({ tasks := [(pid, TaskStatus.generating)], questionsPersisted := [],
         spawned := [pid], persists := [] } : CoordState) =
      { tasks := [(pid, TaskStatus.completed), (pid, TaskStatus.generating)],
        questionsPersisted := [(pid, 5)], spawned := [pid], persists := [pid] } := rfl
  unfold c4Run
  rw [hs1, hs2, iterateStep_start_noop (lookup_cons_self pid TaskStatus.completed _)]
  refine ⟨rfl, rfl, ?_⟩
  simp [questionCount, List.lookup]

/-- Witness for C4 with three checks before and two after the worker. -/
theorem C4_witness :
    (c4Run 42 3 2).spawned = [42] ∧
    (c4Run 42 3 2).persists = [42] ∧
    questionCount (c4Run 42 3 2) 42 = 5 :=
  C4_single_generation_unit 42 3 2 (by omega)

/-- Witness for C3: a backend that always raises still yields a validated
five-question result (the default set) in at most three calls. -/
theorem C3_witness :
    (generateQuestions (fun _ => Except.error ()) "文").2 ≤ 3 ∧
    validateQuestionsFormat (generateQuestions (fun _ => Except.error ()) "文").1 = true :=
  ⟨(C3_generate_questions_retry_fallback (fun _ => Except.error ()) "文").1,
    (C3_generate_questions_retry_fallback (fun _ => Except.error ()) "文").2.1⟩

end SpeedReading
